import Mathlib

/-!
Verification development for the Greenblatt Magic-Formula screener
(src/Greenblatt-Screener.py).  Numeric values are modelled as exact
rationals; a value that may be missing (Python `None` / pandas `NaN`) is an
`Option ℚ`.  Each definition below is a shallow embedding of the
corresponding piece of the Python source; the line numbers in the doc
comments refer to that file.
-/

namespace Greenblatt

/-- The quote/info mapping returned by the provider for one symbol:
emptiness flag, presence of the `longName` existence signal, and the three
numeric fields the script reads (lines 82, 85, 114-116). -/
structure QuoteInfo where
  isEmpty : Bool
  hasLongName : Bool
  marketCap : Option ℚ
  sharesOutstanding : Option ℚ
  currentPrice : Option ℚ

/-- A tabular financial-statement snapshot (balance sheet or income
statement): an emptiness flag and a lookup from row label to the first
column's value (lines 68-72, 88-89). -/
structure StmtTable where
  isEmpty : Bool
  lookup : String → Option ℚ

/-- The raw per-symbol data the provider call yields (lines 82, 88-89). -/
structure RawFinancials where
  info : QuoteInfo
  balance_sheet : StmtTable
  income_stmt : StmtTable

/-- `get_first_available` (lines 68-72): return the value of the first key
present in the table, `none` if no key is present. -/
def get_first_available (df : StmtTable) : List String → Option ℚ
  | [] => none
  | key :: keys =>
    match df.lookup key with
    | some v => some v
    | none => get_first_available df keys

/-- Python truthiness of an optional number: `None` and `0` are falsy
(used by the guards on lines 112, 115, 119). -/
def truthy : Option ℚ → Bool
  | none => false
  | some v => decide (v ≠ 0)

/-- EBIT alias resolution (line 93). -/
def ebit_of (r : RawFinancials) : Option ℚ :=
  get_first_available r.income_stmt ["EBIT", "Ebit", "Operating Income"]

/-- Total current assets (line 94). -/
def tca_of (r : RawFinancials) : Option ℚ :=
  get_first_available r.balance_sheet ["Total Current Assets"]

/-- Cash alias resolution (lines 95-99). -/
def cash_of (r : RawFinancials) : Option ℚ :=
  get_first_available r.balance_sheet
    ["Cash And Cash Equivalents",
     "Cash Cash Equivalents And Short Term Investments",
     "Cash"]

/-- Total current liabilities (line 100). -/
def tcl_of (r : RawFinancials) : Option ℚ :=
  get_first_available r.balance_sheet ["Total Current Liabilities"]

/-- Short-term debt alias resolution (line 101). -/
def std_of (r : RawFinancials) : Option ℚ :=
  get_first_available r.balance_sheet ["Short Term Debt", "Current Debt"]

/-- Net PP&E alias resolution (lines 102-106). -/
def netppe_of (r : RawFinancials) : Option ℚ :=
  get_first_available r.balance_sheet
    ["Property Plant Equipment",
     "Property, Plant & Equipment Net",
     "Net PPE"]

/-- Total debt with the `or 0` default (line 107). -/
def total_debt_of (r : RawFinancials) : ℚ :=
  (get_first_available r.balance_sheet ["Total Debt", "Long Term Debt"]).getD 0

/-- Operating net working capital (line 110):
`(total_current_assets or 0) - (cash or 0) - (total_current_liabilities or 0)
 + (short_term_debt or 0)`. -/
def op_nwc_of (r : RawFinancials) : ℚ :=
  (tca_of r).getD 0 - (cash_of r).getD 0 - (tcl_of r).getD 0 + (std_of r).getD 0

/-- Tangible capital (line 111): `(net_ppe or 0) + op_nwc`.  Always a
number in the source, never `None`. -/
def tangible_cap_of (r : RawFinancials) : ℚ :=
  (netppe_of r).getD 0 + op_nwc_of r

/-- ROTC (line 112): `ebit / tangible_cap if (ebit is not None and
tangible_cap) else None` — the division is guarded by the presence of EBIT
and by Python truthiness (non-zero) of the denominator. -/
def rotc_of (r : RawFinancials) : Option ℚ :=
  match ebit_of r with
  | some e => if tangible_cap_of r = 0 then none else some (e / tangible_cap_of r)
  | none => none

/-- Market cap (lines 114-116): `info.get("marketCap")`, falling back to
`sharesOutstanding * currentPrice` when marketCap is `None` and both
fallback fields are truthy. -/
def market_cap_of (r : RawFinancials) : Option ℚ :=
  match r.info.marketCap with
  | some m => some m
  | none =>
    if truthy r.info.sharesOutstanding && truthy r.info.currentPrice then
      some (r.info.sharesOutstanding.getD 0 * r.info.currentPrice.getD 0)
    else
      none

/-- Enterprise value (line 118):
`(market_cap or 0) + (total_debt or 0) - (cash or 0)`. -/
def ev_of (r : RawFinancials) : ℚ :=
  (market_cap_of r).getD 0 + total_debt_of r - (cash_of r).getD 0

/-- Earnings yield (line 119): `ebit / ev if (ebit is not None and ev)
else None`. -/
def earnings_yield_of (r : RawFinancials) : Option ℚ :=
  match ebit_of r with
  | some e => if ev_of r = 0 then none else some (e / ev_of r)
  | none => none

/-- The record of derived metrics the Fact Extractor produces for one
symbol (the dict on lines 121-128, minus the ticker). -/
structure DerivedMetrics where
  ebit : Option ℚ
  tangible_cap : ℚ
  rotc : Option ℚ
  ev : ℚ
  earnings_yield : Option ℚ

/-- The Fact Extractor: lines 93-128 of `fetch_ticker_data`. -/
def extract (r : RawFinancials) : DerivedMetrics :=
  ⟨ebit_of r, tangible_cap_of r, rotc_of r, ev_of r, earnings_yield_of r⟩

/-- One row of the result DataFrame.  A row built from an error dict has
`error = some msg` and all metric columns `NaN` (here `none`); a row built
from a metrics dict has `error = none` and the metric columns as
computed. -/
structure Row where
  ticker : String
  error : Option String
  ebit : Option ℚ
  tangibleCapital : Option ℚ
  rotc : Option ℚ
  ev : Option ℚ
  earningsYield : Option ℚ
deriving DecidableEq

/-- The row produced by returning `{"Ticker": t, "Error": msg}`
(lines 86, 91, 131): every metric column is `NaN` in the DataFrame. -/
def errorRow (t msg : String) : Row :=
  ⟨t, some msg, none, none, none, none, none⟩

/-- The row produced by the success dict of lines 121-128. -/
def metricsRow (t : String) (m : DerivedMetrics) : Row :=
  ⟨t, none, m.ebit, some m.tangible_cap, m.rotc, some m.ev, m.earnings_yield⟩

/-- `fetch_ticker_data` (lines 77-128), given the provider data for the
symbol: invalid tickers (empty info or no `longName`) and empty statements
yield error rows; otherwise the Fact Extractor runs. -/
def fetch_ticker_data (t : String) (r : RawFinancials) : Row :=
  if r.info.isEmpty || !r.info.hasLongName then
    errorRow t ("Quote not found")
  else if r.balance_sheet.isEmpty || r.income_stmt.isEmpty then
    errorRow t ("Empty financials")
  else
    metricsRow t (extract r)

/-- What one provider call for one symbol can do: return raw data, or
throw a transport/parse fault with a message. -/
inductive ProviderResult where
  | ok (r : RawFinancials)
  | fault (msg : String)
deriving Inhabited

/-- The body of one fetch task including the `except` clause of
lines 130-131: a thrown fault becomes `{"Ticker": t, "Error": str(e)}`. -/
def fetch_outcome (t : String) : ProviderResult → Row
  | ProviderResult.ok r => fetch_ticker_data t r
  | ProviderResult.fault msg => errorRow t msg

/-- The fetch loop of lines 140-149: one row per symbol, each produced
solely from that symbol's own provider result.  The list order is the
order in which results are appended (`as_completed` arrival order). -/
def fetchAll (jobs : List (String × ProviderResult)) : List Row :=
  jobs.map (fun j => fetch_outcome j.1 j.2)

/-- A row lacking EBIT, EV or Tangible Capital (the `isna` test of
line 157). -/
def lacksData (r : Row) : Bool :=
  r.ebit.isNone || r.ev.isNone || r.tangibleCapital.isNone

/-- `no_data` (line 157): the rows with a missing metric column. -/
def no_data (rows : List Row) : List Row :=
  rows.filter lacksData

/-- The `dropna` keep-condition of line 158. -/
def hasData (r : Row) : Bool :=
  r.ebit.isSome && r.ev.isSome && r.tangibleCapital.isSome

/-- The Greenblatt filter of lines 161-165: `EBIT > 0`, `EV > 0`,
`Tangible Capital > 1e6`. -/
def greenblatt_pass (r : Row) : Bool :=
  decide (0 < r.ebit.getD 0) && decide (0 < r.ev.getD 0) &&
    decide (1000000 < r.tangibleCapital.getD 0)

/-- The metric recomputation of lines 168-169: overwrite the `ROTC` and
`Earnings Yield` columns with `EBIT / Tangible Capital` and `EBIT / EV`. -/
def recompute (r : Row) : Row :=
  { r with
    rotc := some (r.ebit.getD 0 / r.tangibleCapital.getD 0),
    earningsYield := some (r.ebit.getD 0 / r.ev.getD 0) }

/-- The sanity filter of line 170: `ROTC < 2` and `Earnings Yield < 1`. -/
def sanity_pass (r : Row) : Bool :=
  decide (r.rotc.getD 0 < 2) && decide (r.earningsYield.getD 0 < 1)

/-- `valid_df` after lines 157-170: dropna, Greenblatt filter, metric
recomputation, sanity filter. -/
def valid_df (rows : List Row) : List Row :=
  ((((rows.filter hasData).filter greenblatt_pass).map recompute).filter sanity_pass)

/-- Count of column entries strictly greater than `v`. -/
def countGt (xs : List ℚ) (v : ℚ) : ℕ :=
  (xs.filter (fun x => decide (v < x))).length

/-- Count of column entries equal to `v`. -/
def countEq (xs : List ℚ) (v : ℚ) : ℕ :=
  (xs.filter (fun x => decide (x = v))).length

/-- pandas `Series.rank(ascending=False)` with the default
`method="average"`: the rank of value `v` is the mean of the ordinal
positions of its ties in descending order, i.e.
`countGt + (countEq + 1) / 2` (a half-integer on even tie groups). -/
def avgRankDesc (xs : List ℚ) (v : ℚ) : ℚ :=
  (countGt xs v : ℚ) + ((countEq xs v : ℚ) + 1) / 2

/-- `Rank_ROTC` (line 173), computed against the `ROTC` column of the
frame `v`. -/
def rank_ROTC (v : List Row) (r : Row) : ℚ :=
  avgRankDesc (v.map (fun x => x.rotc.getD 0)) (r.rotc.getD 0)

/-- `Rank_EY` (line 174). -/
def rank_EY (v : List Row) (r : Row) : ℚ :=
  avgRankDesc (v.map (fun x => x.earningsYield.getD 0)) (r.earningsYield.getD 0)

/-- `Magic_Rank_Score` (line 175): the sum of the two ranks. -/
def magic_rank_score (v : List Row) (r : Row) : ℚ :=
  rank_ROTC v r + rank_EY v r

/-- Insert into a sorted list, keeping the new element after no equal
element it was originally before (stable insertion). -/
def insertSorted (le : α → α → Bool) (a : α) : List α → List α
  | [] => [a]
  | b :: bs => if le a b then a :: b :: bs else b :: insertSorted le a bs

/-- Stable insertion sort. -/
def insertionSort (le : α → α → Bool) : List α → List α
  | [] => []
  | a :: xs => insertSorted le a (insertionSort le xs)

/-- Stable ascending sort by a rational-valued key. -/
def sortByKey (f : α → ℚ) (l : List α) : List α :=
  insertionSort (fun a b => decide (f a ≤ f b)) l

/-- `sort_values("Magic_Rank_Score")` (line 176), modelled as a stable
ascending sort by the composite score (numpy's sort is insertion sort on
frames of the sizes considered here, hence stable). -/
def sort_values (v : List Row) : List Row :=
  sortByKey (magic_rank_score v) v

/-- Pair each row's ticker with its position, counting from `k`. -/
def withPositions : List Row → ℕ → List (String × ℕ)
  | [], _ => []
  | r :: rs, k => (r.ticker, k) :: withPositions rs (k + 1)

/-- `Magic_Rank` (line 177): ticker and 1-based position down the sorted
frame. -/
def magic_ranks (v : List Row) : List (String × ℕ) :=
  withPositions (sort_values v) 1

/-- The whole ranking stage applied to the collected rows (lines 156-177):
filter to `valid_df`, sort by composite score, assign positions. -/
def pipeline_positions (rows : List Row) : List (String × ℕ) :=
  magic_ranks (valid_df rows)

/-- First-occurrence deduplication, as `pandas.unique` (line 207-208). -/
def uniqueFirst : List String → List String
  | [] => []
  | x :: xs => x :: uniqueFirst (xs.filter (fun y => decide (y ≠ x)))
termination_by l => l.length
decreasing_by
  simp only [List.length_cons]
  exact Nat.lt_succ_of_le (List.length_filter_le _ _)

/-- Ascending sort of ticker strings (the `sorted(...)` on line 207). -/
def sortStrings (xs : List String) : List String :=
  insertionSort (fun a b => decide (a ≤ b)) xs

/-- The invalid-ticker list (line 208): the distinct tickers of rows whose
`Error` column is set. -/
def invalid_tickers (rows : List Row) : List String :=
  uniqueFirst ((rows.filter (fun r => r.error.isSome)).map (fun r => r.ticker))

/-- `missing_unique` (line 207): the sorted distinct tickers of rows with
a missing metric column. -/
def missing_unique (rows : List Row) : List String :=
  sortStrings (uniqueFirst ((no_data rows).map (fun r => r.ticker)))

/-- The incomplete-ticker list (line 209): missing tickers not already in
the invalid list. -/
def incomplete_tickers (rows : List Row) : List String :=
  (missing_unique rows).filter (fun t => !(decide (t ∈ invalid_tickers rows)))

/-! Concrete raw inputs used by the witnesses. -/

/-- A resolvable symbol whose statements are present but have no rows:
every lookup misses. -/
def rawNone : RawFinancials :=
  ⟨⟨false, true, none, none, none⟩, ⟨false, fun _ => none⟩, ⟨false, fun _ => none⟩⟩

/-- A resolvable symbol whose every statement field is present and `0`. -/
def rawZeros : RawFinancials :=
  ⟨⟨false, true, some 0, none, none⟩, ⟨false, fun _ => some 0⟩, ⟨false, fun _ => some 0⟩⟩

/-- A fully populated symbol: every balance-sheet field is `2000000`,
EBIT is `600000`, market cap is `6000000`. -/
def rawRich : RawFinancials :=
  ⟨⟨false, true, some 6000000, none, none⟩,
   ⟨false, fun _ => some 2000000⟩, ⟨false, fun _ => some 600000⟩⟩

/-- Claim C1: for every raw input, ROTC is absent whenever Tangible
Capital is absent or zero, and Earnings Yield is absent whenever EV is
absent or zero.  The divisions on lines 112 and 119 are guarded by
presence of EBIT and Python truthiness (non-zeroness) of the denominator,
so they are never evaluated in those cases and no division fault can
occur. -/
theorem C1_division_guard (t : String) (r : RawFinancials) :
    (((fetch_ticker_data t r).tangibleCapital = none ∨
        (fetch_ticker_data t r).tangibleCapital = some 0) →
      (fetch_ticker_data t r).rotc = none) ∧
    (((fetch_ticker_data t r).ev = none ∨ (fetch_ticker_data t r).ev = some 0) →
      (fetch_ticker_data t r).earningsYield = none) := by
  have hro : tangible_cap_of r = 0 → rotc_of r = none := by
    intro h
    unfold rotc_of
    cases ebit_of r with
    | none => rfl
    | some e => simp [h]
  have hey : ev_of r = 0 → earnings_yield_of r = none := by
    intro h
    unfold earnings_yield_of
    cases ebit_of r with
    | none => rfl
    | some e => simp [h]
  unfold fetch_ticker_data
  split
  · exact ⟨fun _ => rfl, fun _ => rfl⟩
  split
  · exact ⟨fun _ => rfl, fun _ => rfl⟩
  constructor
  · intro h
    rcases h with h | h
    · exact absurd h (by simp [metricsRow, extract])
    · have h0 : tangible_cap_of r = 0 := by simpa [metricsRow, extract] using h
      simpa [metricsRow, extract] using hro h0
  · intro h
    rcases h with h | h
    · exact absurd h (by simp [metricsRow, extract])
    · have h0 : ev_of r = 0 := by simpa [metricsRow, extract] using h
      simpa [metricsRow, extract] using hey h0

/-- Witness for C1 at a concrete input: with every statement lookup
missing, Tangible Capital computes to `0` and ROTC is reported absent. -/
theorem C1_division_guard_witness :
    (fetch_ticker_data ("T") rawNone).tangibleCapital = some 0 ∧
    (fetch_ticker_data ("T") rawNone).rotc = none := by
  have h0 : (fetch_ticker_data ("T") rawNone).tangibleCapital = some 0 := by
    simp [fetch_ticker_data, rawNone, metricsRow, extract, tangible_cap_of, op_nwc_of,
      tca_of, cash_of, tcl_of, std_of, netppe_of, get_first_available]
  exact ⟨h0, (C1_division_guard ("T") rawNone).1 (Or.inr h0)⟩

/-- Claim C6: `OperatingNWC` and `TangibleCapital` are computed by the
stated formulas with each absent input defaulted to `0`; on every row
holding data, Tangible Capital is present (so it is absent only where no
data row exists at all), and an all-zero input yields the valid value `0`,
not an absent marker. -/
theorem C6_tangible_capital (r : RawFinancials) :
    op_nwc_of r =
      (tca_of r).getD 0 - (cash_of r).getD 0 - (tcl_of r).getD 0 + (std_of r).getD 0 ∧
    (extract r).tangible_cap = (netppe_of r).getD 0 + op_nwc_of r ∧
    (∀ t : String, (fetch_ticker_data t r).error = none →
      (fetch_ticker_data t r).tangibleCapital =
        some ((netppe_of r).getD 0 + op_nwc_of r)) ∧
    ((tca_of r = some 0 ∧ cash_of r = some 0 ∧ tcl_of r = some 0 ∧
        std_of r = some 0 ∧ netppe_of r = some 0) →
      (extract r).tangible_cap = 0) := by
  refine ⟨rfl, rfl, ?_, ?_⟩
  · intro t herr
    by_cases hA : (r.info.isEmpty || !r.info.hasLongName) = true
    · simp [fetch_ticker_data, hA, errorRow] at herr
    · by_cases hB : (r.balance_sheet.isEmpty || r.income_stmt.isEmpty) = true
      · simp [fetch_ticker_data, hA, hB, errorRow] at herr
      · simp [fetch_ticker_data, hA, hB, metricsRow, extract, tangible_cap_of]
  · rintro ⟨h1, h2, h3, h4, h5⟩
    simp [extract, tangible_cap_of, op_nwc_of, h1, h2, h3, h4, h5]

/-- Witness for C6 at a concrete input: every contributing field present
and zero gives Tangible Capital `0`, reported as a present value. -/
theorem C6_tangible_capital_witness :
    (tca_of rawZeros = some 0 ∧ cash_of rawZeros = some 0 ∧ tcl_of rawZeros = some 0 ∧
      std_of rawZeros = some 0 ∧ netppe_of rawZeros = some 0) ∧
    (fetch_ticker_data ("T") rawZeros).error = none ∧
    (extract rawZeros).tangible_cap = 0 ∧
    (fetch_ticker_data ("T") rawZeros).tangibleCapital =
      some ((netppe_of rawZeros).getD 0 + op_nwc_of rawZeros) := by
  have hz : tca_of rawZeros = some 0 ∧ cash_of rawZeros = some 0 ∧
      tcl_of rawZeros = some 0 ∧ std_of rawZeros = some 0 ∧ netppe_of rawZeros = some 0 := by
    refine ⟨?_, ?_, ?_, ?_, ?_⟩ <;>
      simp [tca_of, cash_of, tcl_of, std_of, netppe_of, rawZeros, get_first_available]
  have herr : (fetch_ticker_data ("T") rawZeros).error = none := by
    simp [fetch_ticker_data, rawZeros, metricsRow]
  exact ⟨hz, herr, (C6_tangible_capital rawZeros).2.2.2 hz,
    (C6_tangible_capital rawZeros).2.2.1 ("T") herr⟩

/-- Claim C8: for an extracted row that passes the zero/negative filters,
the `ROTC` and `Earnings Yield` that lines 168-169 recompute are exactly
the values the Fact Extractor produced from the same EBIT, Tangible
Capital and EV — the identical rational arithmetic, no approximation. -/
theorem C8_recompute_exact (t : String) (r : RawFinancials)
    (h1 : (extract r).ebit.isSome = true)
    (h2 : 0 < (extract r).ebit.getD 0)
    (h3 : 0 < (extract r).ev)
    (h4 : 1000000 < (extract r).tangible_cap) :
    (recompute (metricsRow t (extract r))).rotc = (metricsRow t (extract r)).rotc ∧
    (recompute (metricsRow t (extract r))).earningsYield =
      (metricsRow t (extract r)).earningsYield := by
  have hEb : ∃ e, ebit_of r = some e := by
    simpa [extract, Option.isSome_iff_exists] using h1
  obtain ⟨e, hEb⟩ := hEb
  have htc : tangible_cap_of r ≠ 0 := by
    have h0 : (0:ℚ) < tangible_cap_of r := by
      have := h4
      simp only [extract] at this
      linarith
    exact ne_of_gt h0
  have hev : ev_of r ≠ 0 := by
    have h0 : (0:ℚ) < ev_of r := by simpa [extract] using h3
    exact ne_of_gt h0
  constructor
  · simp [recompute, metricsRow, extract, rotc_of, hEb, htc]
  · simp [recompute, metricsRow, extract, earnings_yield_of, hEb, hev]

/-- Witness for C8 at a concrete input passing all filters. -/
theorem C8_recompute_exact_witness :
    ((extract rawRich).ebit.isSome = true ∧ 0 < (extract rawRich).ebit.getD 0 ∧
      0 < (extract rawRich).ev ∧ 1000000 < (extract rawRich).tangible_cap) ∧
    (recompute (metricsRow ("T") (extract rawRich))).rotc =
      (metricsRow ("T") (extract rawRich)).rotc := by
  have hEb : ebit_of rawRich = some 600000 := by
    simp [ebit_of, rawRich, get_first_available]
  have h1 : (extract rawRich).ebit.isSome = true := by simp [extract, hEb]
  have h2 : 0 < (extract rawRich).ebit.getD 0 := by
    simp only [extract, hEb, Option.getD_some]
    norm_num
  have h3 : 0 < (extract rawRich).ev := by
    simp only [extract, ev_of, market_cap_of, total_debt_of, cash_of, rawRich,
      get_first_available, Option.getD_some]
    norm_num
  have h4 : 1000000 < (extract rawRich).tangible_cap := by
    simp only [extract, tangible_cap_of, op_nwc_of, tca_of, cash_of, tcl_of, std_of,
      netppe_of, rawRich, get_first_available, Option.getD_some]
    norm_num
  exact ⟨⟨h1, h2, h3, h4⟩,
    (C8_recompute_exact ("T") rawRich h1 h2 h3 h4).1⟩

/-- The Eligibility Filter's keep-condition exactly as the claim words it:
EBIT present and strictly positive, EV present and strictly positive,
Tangible Capital present and strictly above `1e6`, and the recomputed
ratios strictly below their bounds. -/
def eligibleSpec (r : Row) : Bool :=
  r.ebit.isSome && decide (0 < r.ebit.getD 0) &&
    (r.ev.isSome && decide (0 < r.ev.getD 0)) &&
    (r.tangibleCapital.isSome && decide (1000000 < r.tangibleCapital.getD 0)) &&
    decide (r.ebit.getD 0 / r.tangibleCapital.getD 0 < 2) &&
    decide (r.ebit.getD 0 / r.ev.getD 0 < 1)

/-- Claim C4: the rows the pipeline of lines 157-170 retains are exactly
the rows satisfying the claim's conjunction of strict checks, each
retained row carrying the recomputed ratios; every row failing a check or
missing a metric is dropped.  In particular the boundaries are strict:
`TangibleCapital = 1e6`, `ROTC = 2` and `EarningsYield = 1` are all
excluded. -/
theorem C4_eligibility_filter (rows : List Row) :
    valid_df rows = (rows.filter eligibleSpec).map recompute := by
  unfold valid_df
  rw [List.filter_map, List.filter_filter, List.filter_filter]
  congr 1
  apply List.filter_congr
  intro r _
  apply Bool.coe_iff_coe.mp
  simp only [Function.comp, Bool.and_eq_true, decide_eq_true_eq, eligibleSpec, hasData,
    greenblatt_pass, sanity_pass, recompute, Option.getD_some]
  tauto

lemma mem_uniqueFirst (t : String) (xs : List String) : t ∈ uniqueFirst xs ↔ t ∈ xs := by
  induction xs using uniqueFirst.induct with
  | case1 => simp [uniqueFirst]
  | case2 x xs ih =>
    rw [uniqueFirst]
    simp only [List.mem_cons, ih, List.mem_filter]
    constructor
    · rintro (rfl | ⟨h, _⟩)
      · exact Or.inl rfl
      · exact Or.inr h
    · rintro (rfl | h)
      · exact Or.inl rfl
      · by_cases hx : t = x
        · exact Or.inl hx
        · exact Or.inr ⟨h, by simpa using hx⟩

lemma mem_invalid_tickers (rows : List Row) (r : Row) (hmem : r ∈ rows)
    (herr : r.error.isSome = true) : r.ticker ∈ invalid_tickers rows := by
  unfold invalid_tickers
  rw [mem_uniqueFirst]
  exact List.mem_map.mpr ⟨r, List.mem_filter.mpr ⟨hmem, herr⟩, rfl⟩

/-- A provider response that resolves but whose info mapping has no
display name (the claim's "lacking the existence signal"). -/
def noNameRaw : RawFinancials :=
  ⟨⟨false, false, none, none, none⟩, ⟨false, fun _ => none⟩, ⟨false, fun _ => none⟩⟩

/-- Counterexample to claim C5: a symbol whose info mapping lacks the
display name is NOT given a distinct NotFound classification.  Line 86
returns an error record (`Error = "Quote not found"`), and the reporting
step of lines 206-217 places it in the same invalid bucket as a
transport-error symbol; only two buckets (invalid, incomplete) exist, so
the not-found symbol is classified as an error, and NotFound is not a
distinct bucket. -/
theorem C5_counterexample :
    (fetch_ticker_data ("X") noNameRaw).error = some ("Quote not found") ∧
    invalid_tickers
        [fetch_ticker_data ("X") noNameRaw, errorRow ("Y") ("HTTP timeout")] =
      ["X", "Y"] ∧
    incomplete_tickers
        [fetch_ticker_data ("X") noNameRaw, errorRow ("Y") ("HTTP timeout")] = [] := by
  refine ⟨rfl, ?_, ?_⟩ <;>
    simp [fetch_ticker_data, noNameRaw, errorRow, invalid_tickers, incomplete_tickers,
      missing_unique, no_data, lacksData, uniqueFirst, sortStrings, insertionSort,
      insertSorted, List.filter]

/-- Amended claim C5: a symbol whose provider call returns an empty
quote-info mapping or one lacking the display name yields the outcome row
`Error = "Quote not found"` — distinguishable from transport errors only
by the message text — and the classification step reports it in the
invalid bucket, the same bucket as every other error outcome; the
reporting has exactly two buckets (invalid and incomplete), with no
separate NotFound bucket. -/
theorem C5_notfound_is_error (t : String) (r : RawFinancials)
    (h : r.info.isEmpty = true ∨ r.info.hasLongName = false) :
    fetch_ticker_data t r = errorRow t ("Quote not found") ∧
    ∀ rows : List Row, fetch_ticker_data t r ∈ rows → t ∈ invalid_tickers rows := by
  have hc : (r.info.isEmpty || !r.info.hasLongName) = true := by
    rcases h with h | h <;> simp [h]
  have hfe : fetch_ticker_data t r = errorRow t ("Quote not found") := by
    simp [fetch_ticker_data, hc]
  refine ⟨hfe, fun rows hmem => ?_⟩
  rw [hfe] at hmem
  exact mem_invalid_tickers rows _ hmem rfl

/-- Witness for the amended C5 at a concrete input. -/
theorem C5_notfound_is_error_witness :
    (noNameRaw.info.isEmpty = true ∨ noNameRaw.info.hasLongName = false) ∧
    fetch_ticker_data ("X") noNameRaw = errorRow ("X") ("Quote not found") :=
  ⟨Or.inr rfl, (C5_notfound_is_error ("X") noNameRaw (Or.inr rfl)).1⟩

lemma mem_valid_df_ebit {rows : List Row} {r : Row} (h : r ∈ valid_df rows) :
    r.ebit.isSome = true := by
  unfold valid_df at h
  obtain ⟨hmap, _⟩ := List.mem_filter.mp h
  obtain ⟨r0, hr0, rfl⟩ := List.mem_map.mp hmap
  obtain ⟨hr1, _⟩ := List.mem_filter.mp hr0
  obtain ⟨_, hdata⟩ := List.mem_filter.mp hr1
  have : r0.ebit.isSome = true := by
    simp only [hasData, Bool.and_eq_true] at hdata
    exact hdata.1.1
  simpa [recompute] using this

/-- Claim C7: a provider fault for one symbol produces exactly the
outcome `Error(message)` for that symbol: the run still yields one row per
symbol, the erroring row is excluded from `valid_df` (ranking) but its
ticker is retained in the invalid report, and the outcome at any position
depends only on that position's own provider result, so no symbol's
failure affects any other symbol. -/
theorem C7_error_isolated (jobs : List (String × ProviderResult)) (i : ℕ) (t msg : String)
    (hf : jobs[i]? = some (t, ProviderResult.fault msg)) :
    (fetchAll jobs).length = jobs.length ∧
    (fetchAll jobs)[i]? = some (errorRow t msg) ∧
    (∀ rows : List Row, errorRow t msg ∉ valid_df rows) ∧
    t ∈ invalid_tickers (fetchAll jobs) ∧
    (∀ jobs2 : List (String × ProviderResult),
      jobs2[i]? = some (t, ProviderResult.fault msg) →
      (fetchAll jobs2)[i]? = (fetchAll jobs)[i]?) := by
  have hget : (fetchAll jobs)[i]? = some (errorRow t msg) := by
    unfold fetchAll
    rw [List.getElem?_map, hf]
    rfl
  refine ⟨List.length_map _ _, hget, ?_, ?_, ?_⟩
  · intro rows hmem
    have h1 := mem_valid_df_ebit hmem
    simp [errorRow] at h1
  · have hmem : errorRow t msg ∈ fetchAll jobs := by
      obtain ⟨hi, hEq⟩ := List.getElem?_eq_some.mp hget
      exact hEq ▸ List.getElem_mem hi
    exact mem_invalid_tickers _ _ hmem rfl
  · intro jobs2 h2
    unfold fetchAll
    rw [List.getElem?_map, List.getElem?_map, hf, h2]

/-- A one-job run whose provider call throws. -/
def faultJobs : List (String × ProviderResult) :=
  [(("T"), ProviderResult.fault ("network down"))]

/-- Witness for C7 at a concrete input. -/
theorem C7_error_isolated_witness :
    faultJobs[0]? = some (("T"), ProviderResult.fault ("network down")) ∧
    (fetchAll faultJobs)[0]? = some (errorRow ("T") ("network down")) ∧
    ("T") ∈ invalid_tickers (fetchAll faultJobs) := by
  have hf : faultJobs[0]? = some (("T"), ProviderResult.fault ("network down")) := rfl
  have h := C7_error_isolated faultJobs 0 ("T") ("network down") hf
  exact ⟨hf, h.2.1, h.2.2.2.1⟩

/-! Structural lemmas about the stable insertion sort. -/

lemma insertSorted_perm (le : α → α → Bool) (a : α) (l : List α) :
    (insertSorted le a l).Perm (a :: l) := by
  induction l with
  | nil => exact List.Perm.refl _
  | cons b bs ih =>
    unfold insertSorted
    split
    · exact List.Perm.refl _
    · exact (ih.cons b).trans (List.Perm.swap a b bs)

lemma insertionSort_perm (le : α → α → Bool) (l : List α) :
    (insertionSort le l).Perm l := by
  induction l with
  | nil => exact List.Perm.refl _
  | cons a xs ih => exact (insertSorted_perm le a _).trans (ih.cons a)

lemma pairwise_insertSorted (le : α → α → Bool)
    (htr : ∀ a b c, le a b = true → le b c = true → le a c = true)
    (hto : ∀ a b, le a b = true ∨ le b a = true)
    (a : α) (l : List α) (hl : l.Pairwise (fun x y => le x y = true)) :
    (insertSorted le a l).Pairwise (fun x y => le x y = true) := by
  induction l with
  | nil => simp [insertSorted]
  | cons b bs ih =>
    rw [List.pairwise_cons] at hl
    unfold insertSorted
    split
    · rename_i hab
      refine List.pairwise_cons.mpr ⟨?_, List.pairwise_cons.mpr hl⟩
      intro x hx
      rcases List.mem_cons.mp hx with rfl | hx
      · exact hab
      · exact htr a b x hab (hl.1 x hx)
    · rename_i hab
      refine List.pairwise_cons.mpr ⟨?_, ih hl.2⟩
      intro x hx
      rcases List.mem_cons.mp ((insertSorted_perm le a bs).mem_iff.mp hx) with heq | hx2
      · subst heq
        rcases hto x b with h | h
        · exact absurd h hab
        · exact h
      · exact hl.1 x hx2

lemma pairwise_insertionSort (le : α → α → Bool)
    (htr : ∀ a b c, le a b = true → le b c = true → le a c = true)
    (hto : ∀ a b, le a b = true ∨ le b a = true) (l : List α) :
    (insertionSort le l).Pairwise (fun x y => le x y = true) := by
  induction l with
  | nil => simp [insertionSort]
  | cons a xs ih => exact pairwise_insertSorted le htr hto a _ ih

lemma sortByKey_perm (f : α → ℚ) (l : List α) : (sortByKey f l).Perm l :=
  insertionSort_perm _ l

lemma sortByKey_pairwise (f : α → ℚ) (l : List α) :
    (sortByKey f l).Pairwise (fun a b => f a ≤ f b) := by
  have h := pairwise_insertionSort (fun a b => decide (f a ≤ f b))
    (fun a b c hab hbc => by
      simp only [decide_eq_true_eq] at hab hbc ⊢
      exact le_trans hab hbc)
    (fun a b => by
      simp only [decide_eq_true_eq]
      exact le_total (f a) (f b)) l
  exact h.imp (fun hx => by simpa using hx)

/-- Two permuted lists with pairwise-distinct keys have the same stable
sort: the sort output is determined by the key order alone. -/
lemma sortByKey_eq_of_perm (f : α → ℚ) {l₁ l₂ : List α} (hp : l₁.Perm l₂)
    (hd : l₁.Pairwise (fun a b => f a ≠ f b)) :
    sortByKey f l₁ = sortByKey f l₂ := by
  have hperm : (sortByKey f l₁).Perm (sortByKey f l₂) :=
    (sortByKey_perm f l₁).trans (hp.trans (sortByKey_perm f l₂).symm)
  have hsymm : ∀ {x y : α}, f x ≠ f y → f y ≠ f x := fun h => Ne.symm h
  have hd₁ : (sortByKey f l₁).Pairwise (fun a b => f a ≠ f b) :=
    ((sortByKey_perm f l₁).pairwise_iff hsymm).mpr hd
  have hd₂ : (sortByKey f l₂).Pairwise (fun a b => f a ≠ f b) :=
    (hperm.pairwise_iff hsymm).mp hd₁
  have hlt₁ : (sortByKey f l₁).Pairwise (fun a b => f a < f b) :=
    ((sortByKey_pairwise f l₁).and hd₁).imp (fun h => lt_of_le_of_ne h.1 h.2)
  have hlt₂ : (sortByKey f l₂).Pairwise (fun a b => f a < f b) :=
    ((sortByKey_pairwise f l₂).and hd₂).imp (fun h => lt_of_le_of_ne h.1 h.2)
  haveI : IsAntisymm α (fun a b => f a < f b ∨ a = b) := by
    constructor
    rintro a b (h1 | rfl) (h2 | h2)
    · exact absurd h2 (not_lt_of_gt h1)
    · exact h2.symm
    · rfl
    · rfl
  have hs₁ : List.Sorted (fun a b => f a < f b ∨ a = b) (sortByKey f l₁) :=
    hlt₁.imp (fun h => Or.inl h)
  have hs₂ : List.Sorted (fun a b => f a < f b ∨ a = b) (sortByKey f l₂) :=
    hlt₂.imp (fun h => Or.inl h)
  exact List.eq_of_perm_of_sorted hperm hs₁ hs₂

lemma valid_df_perm {r1 r2 : List Row} (h : r1.Perm r2) :
    (valid_df r1).Perm (valid_df r2) :=
  List.Perm.filter sanity_pass
    (List.Perm.map recompute
      (List.Perm.filter greenblatt_pass (List.Perm.filter hasData h)))

lemma avgRankDesc_perm {xs ys : List ℚ} (h : xs.Perm ys) (v : ℚ) :
    avgRankDesc xs v = avgRankDesc ys v := by
  unfold avgRankDesc countGt countEq
  rw [(List.Perm.filter _ h).length_eq, (List.Perm.filter _ h).length_eq]

lemma magic_rank_score_perm {v1 v2 : List Row} (h : v1.Perm v2) (r : Row) :
    magic_rank_score v1 r = magic_rank_score v2 r := by
  unfold magic_rank_score rank_ROTC rank_EY
  rw [avgRankDesc_perm (List.Perm.map _ h), avgRankDesc_perm (List.Perm.map _ h)]

/-- Amended claim C3: per-symbol ranks and composite scores depend only on
the multiset of collected rows, and whenever the eligible rows' composite
scores are pairwise distinct the final ranking output is identical across
all arrival (collection) orders.  When composite scores tie, the sort of
line 176 keeps tied rows in arrival order — the append order of the
`as_completed` loop, lines 142-146 — so the output is not independent of
arrival order in general (see the counterexample). -/
theorem C3_order_independence (rows1 rows2 : List Row) (hp : rows1.Perm rows2)
    (hd : (valid_df rows1).Pairwise
      (fun a b =>
        magic_rank_score (valid_df rows1) a ≠ magic_rank_score (valid_df rows1) b)) :
    pipeline_positions rows1 = pipeline_positions rows2 := by
  have hv : (valid_df rows1).Perm (valid_df rows2) := valid_df_perm hp
  have hscore : magic_rank_score (valid_df rows2) = magic_rank_score (valid_df rows1) := by
    funext r
    exact magic_rank_score_perm hv.symm r
  unfold pipeline_positions magic_ranks sort_values
  rw [hscore, sortByKey_eq_of_perm (magic_rank_score (valid_df rows1)) hv hd]

/-- An eligible row: EBIT 2e6, Tangible Capital 2e6, EV 4e6, so the
recomputed ROTC is 1 and the Earnings Yield is 1/2. -/
def rowA : Row := ⟨("A"), none, some 2000000, some 2000000, none, some 4000000, none⟩

/-- An eligible row with strictly worse ratios than `rowA`: ROTC 1/2,
Earnings Yield 1/4. -/
def rowB : Row := ⟨("B"), none, some 2000000, some 4000000, none, some 8000000, none⟩

/-- An eligible row with exactly the metrics of `rowA` under another
ticker, so the two tie on every rank. -/
def rowC : Row := ⟨("C"), none, some 2000000, some 2000000, none, some 4000000, none⟩

/-- Counterexample to claim C3: the same set of two fetch outcomes with
tied composite scores, collected in the two possible arrival orders,
produces two different final rankings — the tie is broken by arrival
order, so the output is not a pure function of the outcome set. -/
theorem C3_counterexample :
    pipeline_positions [rowA, rowC] ≠ pipeline_positions [rowC, rowA] := by
  have h1 : pipeline_positions [rowA, rowC] = [(("A"), 1), (("C"), 2)] := by
    norm_num [pipeline_positions, magic_ranks, sort_values, sortByKey, insertionSort,
      insertSorted, withPositions, valid_df, hasData, greenblatt_pass, sanity_pass,
      recompute, magic_rank_score, rank_ROTC, rank_EY, avgRankDesc, countGt, countEq,
      rowA, rowC, List.filter]
  have h2 : pipeline_positions [rowC, rowA] = [(("C"), 1), (("A"), 2)] := by
    norm_num [pipeline_positions, magic_ranks, sort_values, sortByKey, insertionSort,
      insertSorted, withPositions, valid_df, hasData, greenblatt_pass, sanity_pass,
      recompute, magic_rank_score, rank_ROTC, rank_EY, avgRankDesc, countGt, countEq,
      rowA, rowC, List.filter]
  rw [h1, h2]
  decide

/-- Witness for the amended C3: with pairwise-distinct composite scores
the two arrival orders produce the same ranking. -/
theorem C3_order_independence_witness :
    pipeline_positions [rowB, rowA] = pipeline_positions [rowA, rowB] := by
  refine C3_order_independence [rowB, rowA] [rowA, rowB] (List.Perm.swap rowA rowB []) ?_
  norm_num [valid_df, hasData, greenblatt_pass, sanity_pass, recompute, rowA, rowB,
    List.filter, List.pairwise_cons, magic_rank_score, rank_ROTC, rank_EY, avgRankDesc,
    countGt, countEq]

/-- Entry A of the claim's ranking scenario: ROTC 0.30, EY 0.10. -/
def entryA : Row := ⟨("A"), none, none, none, some (3/10), none, some (1/10)⟩

/-- Entry B of the claim's ranking scenario: ROTC 0.20, EY 0.20. -/
def entryB : Row := ⟨("B"), none, none, none, some (2/10), none, some (2/10)⟩

/-- Entry C of the claim's ranking scenario: ROTC 0.30, EY 0.10. -/
def entryC : Row := ⟨("C"), none, none, none, some (3/10), none, some (1/10)⟩

/-- The claim's three entries in input order. -/
def scenario : List Row := [entryA, entryB, entryC]

/-- Counterexample to claim C2: `Series.rank(ascending=False)` on line 173
uses the pandas default `method="average"`, not competition ranking, so on
the claim's scenario entry A receives ROTC rank 1.5, not the claimed 1. -/
theorem C2_counterexample :
    rank_ROTC scenario entryA = 3/2 ∧ ((3:ℚ)/2) ≠ 1 := by
  constructor
  · norm_num [rank_ROTC, avgRankDesc, countGt, countEq, scenario, entryA, entryB,
      entryC, List.filter]
  · norm_num

/-- Amended claim C2: lines 173-175 assign fractional average ranks
(ties receive the mean of their ordinal positions, equal values equal
rank), so the scenario produces RankROTC A=1.5, C=1.5, B=3, RankEY B=1,
A=2.5, C=2.5, CompositeScore 4 for all three entries, and the stable
ascending sort leaves the tied entries in input order: A, B, C with
positions 1, 2, 3. -/
theorem C2_average_ranking :
    rank_ROTC scenario entryA = 3/2 ∧ rank_ROTC scenario entryC = 3/2 ∧
    rank_ROTC scenario entryB = 3 ∧
    rank_EY scenario entryB = 1 ∧ rank_EY scenario entryA = 5/2 ∧
    rank_EY scenario entryC = 5/2 ∧
    magic_rank_score scenario entryA = 4 ∧ magic_rank_score scenario entryB = 4 ∧
    magic_rank_score scenario entryC = 4 ∧
    magic_ranks scenario = [(("A"), 1), (("B"), 2), (("C"), 3)] := by
  refine ⟨?_, ?_, ?_, ?_, ?_, ?_, ?_, ?_, ?_, ?_⟩ <;>
    norm_num [magic_ranks, sort_values, sortByKey, insertionSort, insertSorted,
      withPositions, magic_rank_score, rank_ROTC, rank_EY, avgRankDesc, countGt,
      countEq, scenario, entryA, entryB, entryC, List.filter]

/-- Modelled from the spec: rounding a composite score to two decimal
places, represented as the integer count of hundredths
(`floor (100 q + 1/2)`).  The tie-group computation this feeds appears in
other variants of the repository but not in this script variant (whose
header advertises minimal output with "no tie clutter"), so it is
modelled here from §4.4 of the spec alone. -/
def round2 (q : ℚ) : ℤ :=
  Int.fdiv (q * 100 + 1/2).num ((q * 100 + 1/2).den : ℤ)

/-- Modelled from the spec: walking the sorted sequence with the previous
entry's score and group id in hand, an entry joins the previous group when
its rounded score matches, otherwise it opens group `g + 1`. -/
def tieGroupsAux (prev : ℚ) (g : ℕ) : List ℚ → List ℕ
  | [] => []
  | x :: xs =>
    if round2 x = round2 prev then g :: tieGroupsAux x g xs
    else (g + 1) :: tieGroupsAux x (g + 1) xs

/-- Modelled from the spec: the head of the sorted score sequence opens
group 1. -/
def tieGroups : List ℚ → List ℕ
  | [] => []
  | x :: xs => 1 :: tieGroupsAux x 1 xs

/-- The walk relation on (score, group) pairs: a step keeps the group id
exactly when the rounded scores agree, else increments it by one. -/
def tieStep (p q : ℚ × ℕ) : Prop :=
  q.2 = if round2 q.1 = round2 p.1 then p.2 else p.2 + 1

lemma tieGroupsAux_length (xs : List ℚ) :
    ∀ (prev : ℚ) (g : ℕ), (tieGroupsAux prev g xs).length = xs.length := by
  induction xs with
  | nil => intro prev g; rfl
  | cons x xs ih =>
    intro prev g
    unfold tieGroupsAux
    split <;> simp [ih]

lemma tieGroupsAux_chain (xs : List ℚ) :
    ∀ (prev : ℚ) (g : ℕ),
      List.Chain' tieStep ((prev, g) :: xs.zip (tieGroupsAux prev g xs)) := by
  induction xs with
  | nil => intro prev g; simp [tieGroupsAux]
  | cons x xs ih =>
    intro prev g
    unfold tieGroupsAux
    by_cases h : round2 x = round2 prev
    · rw [if_pos h, List.zip_cons_cons]
      exact List.chain'_cons.mpr ⟨by simp [tieStep, h], ih x g⟩
    · rw [if_neg h, List.zip_cons_cons]
      exact List.chain'_cons.mpr ⟨by simp [tieStep, h], ih x (g + 1)⟩

/-- Claim C9: tie groups down a sorted score sequence start at group 1,
the group id is kept exactly when the rounded (2-decimal) score matches
the previous entry's and incremented by exactly 1 when it differs, and
consequently the group ids are non-decreasing and rise by at most 1 per
step.  (The computation is modelled from the spec; this script variant
omits it.) -/
theorem C9_tie_groups (scores : List ℚ) :
    (tieGroups scores).length = scores.length ∧
    (scores ≠ [] → (tieGroups scores).head? = some 1) ∧
    List.Chain' tieStep (scores.zip (tieGroups scores)) ∧
    List.Chain' (fun a b => a ≤ b ∧ b ≤ a + 1) (tieGroups scores) := by
  match scores with
  | [] => exact ⟨rfl, fun h => absurd rfl h, by simp, by simp [tieGroups]⟩
  | s :: rest =>
    have hlen : (tieGroups (s :: rest)).length = (s :: rest).length := by
      simp [tieGroups, tieGroupsAux_length]
    have hchain : List.Chain' tieStep ((s :: rest).zip (tieGroups (s :: rest))) := by
      simp only [tieGroups, List.zip_cons_cons]
      exact tieGroupsAux_chain rest s 1
    refine ⟨hlen, fun _ => rfl, hchain, ?_⟩
    have hstep : ∀ p q : ℚ × ℕ, tieStep p q → p.2 ≤ q.2 ∧ q.2 ≤ p.2 + 1 := by
      intro p q h
      unfold tieStep at h
      split at h <;> omega
    have hmono : List.Chain' (fun p q : ℚ × ℕ => p.2 ≤ q.2 ∧ q.2 ≤ p.2 + 1)
        ((s :: rest).zip (tieGroups (s :: rest))) := hchain.imp hstep
    have hmap : List.map Prod.snd ((s :: rest).zip (tieGroups (s :: rest))) =
        tieGroups (s :: rest) :=
      List.map_snd_zip _ _ (le_of_eq hlen)
    rw [← hmap]
    exact (List.chain'_map Prod.snd).mpr hmono

/-- Witness for C9 at a concrete nonempty score list. -/
theorem C9_tie_groups_witness :
    ([(0:ℚ)] ≠ ([] : List ℚ)) ∧ (tieGroups [(0:ℚ)]).head? = some 1 := by
  have h : [(0:ℚ)] ≠ ([] : List ℚ) := by simp
  exact ⟨h, (C9_tie_groups [(0:ℚ)]).2.1 h⟩

lemma mem_invalid_iff {rows : List Row} {t : String} :
    t ∈ invalid_tickers rows ↔ ∃ r ∈ rows, r.error.isSome = true ∧ r.ticker = t := by
  unfold invalid_tickers
  rw [mem_uniqueFirst]
  simp [List.mem_map, List.mem_filter, and_assoc]

lemma mem_missing_unique {rows : List Row} {t : String} :
    t ∈ missing_unique rows ↔ ∃ r ∈ rows, lacksData r = true ∧ r.ticker = t := by
  unfold missing_unique sortStrings no_data
  rw [(insertionSort_perm _ _).mem_iff, mem_uniqueFirst]
  simp [List.mem_map, List.mem_filter, and_assoc]

/-- Claim C10: the invalid and incomplete ticker lists of lines 206-217
are disjoint, and every ticker with a row missing EBIT, EV or Tangible
Capital lands in exactly one of them: in the invalid list when some row of
that ticker carries an error message, in the incomplete list when none
does. -/
theorem C10_report_partition (rows : List Row) (t : String) :
    ¬(t ∈ invalid_tickers rows ∧ t ∈ incomplete_tickers rows) ∧
    ((∃ r ∈ rows, r.ticker = t ∧ lacksData r = true) →
      ((∃ r ∈ rows, r.ticker = t ∧ r.error.isSome = true) →
        t ∈ invalid_tickers rows ∧ t ∉ incomplete_tickers rows) ∧
      ((∀ r ∈ rows, r.ticker = t → r.error = none) →
        t ∈ incomplete_tickers rows ∧ t ∉ invalid_tickers rows)) := by
  have hinc : t ∈ incomplete_tickers rows ↔
      t ∈ missing_unique rows ∧ t ∉ invalid_tickers rows := by
    unfold incomplete_tickers
    simp [List.mem_filter]
  constructor
  · rintro ⟨h1, h2⟩
    exact (hinc.mp h2).2 h1
  · rintro ⟨r, hr, hrt, hrl⟩
    constructor
    · rintro ⟨r2, hr2, hrt2, hre2⟩
      have hinv : t ∈ invalid_tickers rows := mem_invalid_iff.mpr ⟨r2, hr2, hre2, hrt2⟩
      exact ⟨hinv, fun hc => (hinc.mp hc).2 hinv⟩
    · intro hnone
      have hninv : t ∉ invalid_tickers rows := by
        intro hc
        obtain ⟨r2, hr2, hre2, hrt2⟩ := mem_invalid_iff.mp hc
        have h0 := hnone r2 hr2 hrt2
        simp [h0] at hre2
      exact ⟨hinc.mpr ⟨mem_missing_unique.mpr ⟨r, hr, hrl, hrt⟩, hninv⟩, hninv⟩

/-- A collected run with one error row and one incomplete data row. -/
def demoRows : List Row :=
  [errorRow ("E") ("boom"), ⟨("I"), none, none, none, none, none, none⟩]

/-- Witness for C10 at a concrete run. -/
theorem C10_report_partition_witness :
    ¬(("E") ∈ invalid_tickers demoRows ∧ ("E") ∈ incomplete_tickers demoRows) ∧
    (("E") ∈ invalid_tickers demoRows ∧ ("E") ∉ incomplete_tickers demoRows) := by
  refine ⟨(C10_report_partition demoRows ("E")).1, ?_⟩
  exact ((C10_report_partition demoRows ("E")).2 (by decide)).1 (by decide)

end Greenblatt
